import Mathlib

/-!
Verification of the shebang-remote repository: a shallow embedding of the
script safety validator (`src/server/serializers.py`), the command lifecycle
operations (`src/server/views.py`) and the agent startup logic
(`src/agent.py`), together with theorems settling the specification claims.

Strings are modelled as `List Char`; the Python string operations used by the
code (`lower`, `strip`, `replace`, `split`, `splitlines`, `startswith`,
substring containment, `shlex.split`) are embedded explicitly below.
-/

/-- Strings of the embedded program. -/
abbrev Str := List Char

namespace PyStr

/-- Python `sub in s` (substring containment): `pyStartswith s p` is
`s.startswith(p)`. -/
def pyStartswith : Str → Str → Bool
  | _, [] => true
  | [], _ :: _ => false
  | c :: cs, p :: ps => p == c && pyStartswith cs ps

/-- Python `sub in s` (substring containment at any position). -/
def pyContains (s sub : Str) : Bool :=
  match s with
  | [] => pyStartswith [] sub
  | _ :: rest => pyStartswith s sub || pyContains rest sub

/-- ASCII lower-casing of one character, as applied by Python `str.lower`
on the ASCII texts this code handles. -/
def pyCharLower (c : Char) : Char :=
  if 65 ≤ c.toNat ∧ c.toNat ≤ 90 then Char.ofNat (c.toNat + 32) else c

/-- Python `s.lower()`. -/
def pyLower (s : Str) : Str := s.map pyCharLower

/-- Whitespace characters stripped by Python `str.strip()`. -/
def isPyWS (c : Char) : Bool :=
  c == ' ' || c == '\t' || c == '\n' || c == '\r' || c == '\x0b' || c == '\x0c'

/-- Remove leading characters satisfying `p` (Python `lstrip`). -/
def lstripP (p : Char → Bool) : Str → Str
  | [] => []
  | c :: rest => if p c then lstripP p rest else c :: rest

/-- Python `s.strip(chars)`: strip characters satisfying `p` from both ends. -/
def pyStripP (p : Char → Bool) (s : Str) : Str :=
  (lstripP p (lstripP p s).reverse).reverse

/-- Python `s.strip()` (whitespace). -/
def pyStripWS (s : Str) : Str := pyStripP isPyWS s

/-- Python `s.strip('\'"')` as used on path tokens. -/
def pyStripQuotes (s : Str) : Str := pyStripP (fun c => c == '\'' || c == '"') s

/-- Python `s.split(sep)` for a one-character separator. -/
def pySplitChar (sep : Char) : Str → List Str
  | [] => [[]]
  | a :: rest =>
    let r := pySplitChar sep rest
    if a = sep then [] :: r
    else
      match r with
      | [] => [[a]]
      | h :: t => (a :: h) :: t

/-- Python `s.splitlines()` restricted to the line boundaries `\n`, `\r\n`
and `\r` (no trailing empty line; empty string gives no lines). -/
def pySplitlines : Str → List Str
  | [] => []
  | '\r' :: '\n' :: rest => [] :: pySplitlines rest
  | '\n' :: rest => [] :: pySplitlines rest
  | '\r' :: rest => [] :: pySplitlines rest
  | a :: rest =>
    match pySplitlines rest with
    | [] => [[a]]
    | h :: t => (a :: h) :: t

/-- Python `s.rstrip('/')` as used on the configured server URL. -/
def pyRstripSlash (s : Str) : Str := (s.reverse.dropWhile (· == '/')).reverse

end PyStr

open PyStr

namespace Shlex

/-- Lexer states of Python `shlex` in POSIX `whitespace_split` mode:
between tokens, inside a word, inside single or double quotes, and the
escape states entered after a backslash from word context (`escWord`) or
from inside double quotes (`escDquote`). -/
inductive SState where
  | between | word | squote | dquote | escWord | escDquote
  deriving DecidableEq

/-- Characters `shlex` treats as token-separating whitespace. -/
def isShWS (c : Char) : Bool :=
  c == ' ' || c == '\t' || c == '\r' || c == '\n'

/-- The `shlex.split(seg, comments=False)` state machine (POSIX rules,
whitespace splitting): returns `none` on a quoting error ("No closing
quotation" / "No escaped character"), otherwise the token list.  `tok` is
the token accumulated so far and `quoted` records whether it contained a
quoted part (so that `''` yields an empty token). -/
def run : Str → SState → Str → Bool → Option (List Str)
  | [], st, tok, quoted =>
    match st with
    | .squote | .dquote => none
    | .escWord | .escDquote => none
    | .between | .word => if tok.isEmpty && !quoted then some [] else some [tok]
  | c :: rest, .between, tok, quoted =>
    if isShWS c then run rest .between tok quoted
    else if c = '\'' then run rest .squote tok quoted
    else if c = '"' then run rest .dquote tok quoted
    else if c = '\\' then run rest .escWord tok quoted
    else run rest .word (tok ++ [c]) quoted
  | c :: rest, .word, tok, quoted =>
    if isShWS c then
      if tok.isEmpty && !quoted then run rest .between [] false
      else (run rest .between [] false).map (tok :: ·)
    else if c = '\'' then run rest .squote tok quoted
    else if c = '"' then run rest .dquote tok quoted
    else if c = '\\' then run rest .escWord tok quoted
    else run rest .word (tok ++ [c]) quoted
  | c :: rest, .squote, tok, _ =>
    if c = '\'' then run rest .word tok true
    else run rest .squote (tok ++ [c]) true
  | c :: rest, .dquote, tok, _ =>
    if c = '"' then run rest .word tok true
    else if c = '\\' then run rest .escDquote tok true
    else run rest .dquote (tok ++ [c]) true
  | c :: rest, .escWord, tok, quoted => run rest .word (tok ++ [c]) quoted
  | c :: rest, .escDquote, tok, quoted =>
    if c = '\\' || c = '"' then run rest .dquote (tok ++ [c]) quoted
    else run rest .dquote (tok ++ ['\\', c]) quoted

/-- `shlex.split(seg, comments=False)`. -/
def split (s : Str) : Option (List Str) := run s .between [] false

end Shlex

namespace Serializers

open Shlex

/-- The fixed allowlist of command basenames
(`ScriptSchema.validate_allowed_commands`, `allowed_commands`). -/
def allowedCommands : List Str :=
  ["awk", "basename", "cat", "cd", "cp", "cut", "date", "df", "diff", "diff3", "dig",
   "dirname", "dmesg", "dmidecode", "du", "echo", "env", "find", "free", "grep", "head",
   "help", "history", "host", "hostname", "id", "info", "ip", "journalctl", "less", "ll",
   "ls", "lsof", "man", "md5sum", "mkdir", "more", "nmap", "ping", "printenv", "printf",
   "ps", "pwd", "readlink", "rmdir", "sar", "sed", "sleep", "sort", "ss", "stat", "tac",
   "tail", "tar", "touch", "tr", "uname", "uniq", "uptime", "vmstat", "wc", "which",
   "whoami", "whois", "xargs"].map String.toList

/-- Path prefixes that must not be accessed (`forbidden_path_prefixes`). -/
def forbiddenPathPrefixes : List Str :=
  ["/etc", "/root", "/boot", "/dev", "/proc", "/sys", "/var/lib", "/var/run", "/run"].map
    String.toList

/-- Tokens disallowed anywhere in the script, in scan order
(`disallowed_tokens`). -/
def disallowedTokens : List Str :=
  [";", "&&", "||", "`", "$(", "sudo", "su"].map String.toList

/-- Rejection reasons of the validator, one constructor per `ValueError`
raised in `validate_allowed_commands`. -/
inductive VErr where
  | disallowedToken (bad : Str)
  | chaining (lineno : Nat)
  | unableToParseLine (lineno : Nat)
  | emptySegment (lineno : Nat)
  | unparsableSegment (lineno : Nat)
  | noTokens (lineno : Nat)
  | noCommand (lineno : Nat)
  | commandNotAllowed (tok : Str) (lineno : Nat)
  | danglingRedirect (tok : Str) (lineno : Nat)
  | redirectionForbidden (target : Str) (lineno : Nat)
  | forbiddenPath (tok : Str) (lineno : Nat)
  deriving DecidableEq

/-- Body of `token_references_forbidden_path` after the quote-stripping
canonicalization: the `~` heuristic, then the `/`-prefix requirement, then
the sensitive-root comparison (`exact prefix or prefix + '/'`). -/
def forbiddenCore (c : Str) : Bool :=
  if pyStartswith c (String.toList "~") &&
      (pyStartswith c (String.toList "~root") || c == String.toList "~root" ||
        pyStartswith c (String.toList "~/root")) then
    true
  else if !pyStartswith c (String.toList "/") then
    false
  else
    forbiddenPathPrefixes.any fun pref => c == pref || pyStartswith c (pref ++ ['/'])

/-- `token_references_forbidden_path(tok)`: strip surrounding quotes, then
apply the forbidden-path logic. -/
def token_references_forbidden_path (tok : Str) : Bool :=
  forbiddenCore (pyStripQuotes tok)

/-- The regular expression `^[A-Za-z_][A-Za-z0-9_]*=` used to skip leading
environment assignments: rest of the name up to a mandatory `=`. -/
def envAssignRest : Str → Bool
  | [] => false
  | c :: rest => if c = '=' then true else (c.isAlphanum || c = '_') && envAssignRest rest

/-- Whether a token matches `^[A-Za-z_][A-Za-z0-9_]*=`. -/
def isEnvAssignment (tok : Str) : Bool :=
  match tok with
  | [] => false
  | c :: rest => (c.isAlpha || c = '_') && envAssignRest rest

/-- The first non-environment-assignment token, with its index: the command
token of a segment. -/
def findCmdToken : List Str → Nat → Option (Nat × Str)
  | [], _ => none
  | t :: rest, i => if isEnvAssignment t then findCmdToken rest (i + 1) else some (i, t)

/-- Basename of the command token: text after the last `/` when the token
contains one (`cmd_token.split('/')[-1]`). -/
def cmdBasename (tok : Str) : Str :=
  if pyContains tok ['/'] then (pySplitChar '/' tok).getLastD [] else tok

/-- The recognized redirection operator tokens. -/
def redirOps : List Str := [">", ">>", "<", "2>", "2>>"].map String.toList

/-- The `while i < len(tokens)` loop over the tokens after the command
token: a redirection operator consumes the following token as its target
(rejecting a dangling operator or a forbidden target); any other token is
checked against the forbidden-path rule directly. -/
def scanArgs (lineno : Nat) : List Str → Except VErr Unit
  | [] => .ok ()
  | tok :: rest =>
    if redirOps.contains tok then
      match rest with
      | [] => .error (.danglingRedirect tok lineno)
      | target :: rest2 =>
        if token_references_forbidden_path target then
          .error (.redirectionForbidden target lineno)
        else scanArgs lineno rest2
    else if token_references_forbidden_path tok then
      .error (.forbiddenPath tok lineno)
    else scanArgs lineno rest

/-- Validation of one (already stripped) pipeline segment: non-emptiness,
shlex tokenization, command resolution, allowlist check, argument scan. -/
def validateSegment (lineno : Nat) (seg : Str) : Except VErr Unit :=
  if seg.isEmpty then .error (.emptySegment lineno)
  else
    match Shlex.split seg with
    | none => .error (.unparsableSegment lineno)
    | some tokens =>
      if tokens.isEmpty then .error (.noTokens lineno)
      else
        match findCmdToken tokens 0 with
        | none => .error (.noCommand lineno)
        | some (idx, cmdTok) =>
          if !allowedCommands.contains (pyLower (cmdBasename cmdTok)) then
            .error (.commandNotAllowed cmdTok lineno)
          else scanArgs lineno (tokens.drop (idx + 1))

/-- Sequential validation of the segments of one line. -/
def validateSegments (lineno : Nat) : List Str → Except VErr Unit
  | [] => .ok ()
  | seg :: rest =>
    match validateSegment lineno seg with
    | .error e => .error e
    | .ok _ => validateSegments lineno rest

/-- Validation of one raw line: skip blank and `#` lines, reject chaining
characters, then split on `|` and validate each stripped segment. -/
def validateLine (lineno : Nat) (raw : Str) : Except VErr Unit :=
  let line := pyStripWS raw
  if line.isEmpty || pyStartswith line ['#'] then .ok ()
  else if pyContains line [';'] || pyContains line ['&', '&'] ||
      pyContains line ['|', '|'] then
    .error (.chaining lineno)
  else
    let segments := (pySplitChar '|' line).map pyStripWS
    if segments.isEmpty then .error (.unableToParseLine lineno)
    else validateSegments lineno segments

/-- Sequential validation of the lines, numbered from `start`. -/
def validateLines : Nat → List Str → Except VErr Unit
  | _, [] => .ok ()
  | n, l :: rest =>
    match validateLine n l with
    | .error e => .error e
    | .ok _ => validateLines (n + 1) rest

/-- The overall scan for disallowed tokens anywhere in the lower-cased
text: first match in `disallowedTokens` order. -/
def scanDisallowed (lowered : Str) : Option Str :=
  disallowedTokens.find? fun bad => pyContains lowered bad

/-- `ScriptSchema.validate_allowed_commands(v)`: empty content passes
unchanged; otherwise the global disallowed-token scan, then the line-by-line
structural validation; on success the content is returned unchanged. -/
def validate_allowed_commands (v : Str) : Except VErr Str :=
  if v.isEmpty then .ok v
  else
    match scanDisallowed (pyLower v) with
    | some bad => .error (.disallowedToken bad)
    | none =>
      match validateLines 1 (pySplitlines v) with
      | .error e => .error e
      | .ok _ => .ok v

/-- `ScriptSchema.normalize_name(value)`:
`value.replace(' ', '').lower().strip()`. -/
def normalize_name (value : Str) : Str :=
  pyStripWS (pyLower (value.filter fun c => !(c == ' ')))

end Serializers

namespace Server

open Serializers

/-- Command statuses backed by the two-row `CommandStatusReference` table. -/
inductive CmdStatus where
  | pending | completed
  deriving DecidableEq

/-- A row of the `Command` table: server-assigned id, references to the
machine and the script, status and nullable output. -/
structure Cmd where
  id : Nat
  machine_id : Str
  script_name : Str
  status : CmdStatus
  output : Option Str
  deriving DecidableEq

/-- A row of the `Machine` table (`created_at`/`updated_at` omitted;
`last_seen` as an abstract instant). -/
structure MachineRec where
  id : Str
  name : Str
  last_seen : Nat
  deriving DecidableEq

/-- The persistent store: machines, scripts (name, content), commands, and
the autoincrement counter for command ids. -/
structure ServerState where
  machines : List MachineRec
  scripts : List (Str × Str)
  commands : List Cmd
  nextCommandId : Nat
  deriving DecidableEq

/-- The empty database. -/
def initialState : ServerState := ⟨[], [], [], 0⟩

/-- Errors surfaced by the endpoints: 404, 409, and 422 carrying the
validator's rejection reason. -/
inductive ServerError where
  | notFound
  | conflict
  | validationFailed (e : VErr)
  deriving DecidableEq

def findMachine (st : ServerState) (id : Str) : Option MachineRec :=
  st.machines.find? fun m => m.id == id

def findScript (st : ServerState) (name : Str) : Option (Str × Str) :=
  st.scripts.find? fun s => s.1 == name

def findCommand (st : ServerState) (id : Nat) : Option Cmd :=
  st.commands.find? fun c => c.id == id

/-- `create_update_machine` (POST /register_machine): create the machine
with `last_seen = now`, or update name and `last_seen` of the existing one. -/
def register_machine (st : ServerState) (id name : Str) (now : Nat) : ServerState :=
  match findMachine st id with
  | none => { st with machines := st.machines ++ [⟨id, name, now⟩] }
  | some _ =>
    { st with machines := st.machines.map fun m =>
        if m.id == id then ⟨id, name, now⟩ else m }

/-- `create_script` (POST /scripts).  Request parsing runs `ScriptSchema`:
`normalize_name` on the name and `validate_allowed_commands` on the content
(a rejection is surfaced before anything is stored); the duplicate primary
key `Script.name` surfaces as a 409 conflict with the insert rolled back. -/
def create_script (st : ServerState) (rawName content : Str) :
    Except ServerError (ServerState × Str) :=
  match validate_allowed_commands content with
  | .error e => .error (.validationFailed e)
  | .ok c =>
    match findScript st (normalize_name rawName) with
    | some _ => .error .conflict
    | none =>
      .ok ({ st with scripts := st.scripts ++ [(normalize_name rawName, c)] },
           normalize_name rawName)

/-- `schedule_machine_command` (POST /execute): 404 unless both the machine
and the script exist; otherwise persist a new command in `pending` status. -/
def schedule_machine_command (st : ServerState) (machine_id script_name : Str) :
    Except ServerError (ServerState × Cmd) :=
  match findMachine st machine_id with
  | none => .error .notFound
  | some _ =>
    match findScript st script_name with
    | none => .error .notFound
    | some _ =>
      let c : Cmd := ⟨st.nextCommandId, machine_id, script_name, .pending, none⟩
      .ok ({ st with
              commands := st.commands ++ [c],
              nextCommandId := st.nextCommandId + 1 }, c)

/-- `list_pending_commands` (GET /commands/{machine_id}): 404 unless the
machine exists; touch its `last_seen`, then return its pending commands. -/
def list_pending_commands (st : ServerState) (machine_id : Str) (now : Nat) :
    Except ServerError (ServerState × List Cmd) :=
  match findMachine st machine_id with
  | none => .error .notFound
  | some _ =>
    let st' := { st with machines := st.machines.map fun m =>
        if m.id == machine_id then { m with last_seen := now } else m }
    .ok (st', st'.commands.filter fun c =>
        c.machine_id == machine_id && c.status == .pending)

/-- `store_command_result` (POST /commands/{command_id}/result): 404 unless
the command exists; otherwise set its output and its status to `completed`,
with no check of the prior status. -/
def store_command_result (st : ServerState) (command_id : Nat) (output : Option Str) :
    Except ServerError (ServerState × Cmd) :=
  match findCommand st command_id with
  | none => .error .notFound
  | some c =>
    .ok ({ st with commands := st.commands.map fun d =>
            if d.id == command_id then { d with output := output, status := .completed }
            else d },
         { c with output := output, status := .completed })

/-- One server request, with the request-time instant where the handler
reads the clock. -/
inductive Op where
  | register (id name : Str) (now : Nat)
  | createScript (name content : Str)
  | schedule (machine_id script_name : Str)
  | listPending (machine_id : Str) (now : Nat)
  | complete (command_id : Nat) (output : Option Str)

/-- Effect of one request on the store; a failing request (rolled-back
transaction) leaves the store unchanged. -/
def applyOp (op : Op) (st : ServerState) : ServerState :=
  match op with
  | .register id name now => register_machine st id name now
  | .createScript n c =>
    match create_script st n c with
    | .ok (st', _) => st'
    | .error _ => st
  | .schedule m s =>
    match schedule_machine_command st m s with
    | .ok (st', _) => st'
    | .error _ => st
  | .listPending m now =>
    match list_pending_commands st m now with
    | .ok (st', _) => st'
    | .error _ => st
  | .complete id out =>
    match store_command_result st id out with
    | .ok (st', _) => st'
    | .error _ => st

/-- States reachable from the empty database by server requests. -/
inductive Reachable : ServerState → Prop where
  | init : Reachable initialState
  | step (op : Op) {st : ServerState} : Reachable st → Reachable (applyOp op st)

/-- Structural well-formedness of the store: command ids are pairwise
distinct and below the autoincrement counter. -/
def WFState (st : ServerState) : Prop :=
  st.commands.Pairwise (fun a b => a.id ≠ b.id) ∧
    ∀ c ∈ st.commands, c.id < st.nextCommandId

end Server

namespace Agent

/-- The persisted agent configuration, as the string-valued fields of the
JSON object in `/etc/agent/config.json` (an association list). -/
abbrev Config := List (Str × Str)

/-- Python `config.get(key)` / `config[key]` lookup. -/
def dictGet (cfg : Config) (k : Str) : Option Str :=
  (cfg.find? fun p => p.1 == k).map (·.2)

/-- `load_config()`: the parsed file when it exists, else the empty dict. -/
def load_config (file : Option Config) : Config :=
  match file with
  | some cfg => cfg
  | none => []

/-- The failure of run-loop startup: `config['agent_id']` raising
`KeyError`. -/
inductive StartupError where
  | keyErrorAgentId
  deriving DecidableEq

/-- The configuration key `server_url`. -/
def serverUrlKey : Str := String.toList "server_url"

/-- The configuration key `agent_id`. -/
def agentIdKey : Str := String.toList "agent_id"

/-- The run-loop branch of `main()` up to entering the loop: load the
configuration, read `server_url` with `config.get('server_url', '')`
followed by `.rstrip('/')`, then read `agent_id` with `config['agent_id']`
(fatal `KeyError` when absent).  Returns the pair the loop runs with. -/
def run_mode_startup (file : Option Config) : Except StartupError (Str × Str) :=
  let config := load_config file
  let server_url := PyStr.pyRstripSlash ((dictGet config serverUrlKey).getD [])
  match dictGet config agentIdKey with
  | none => .error .keyErrorAgentId
  | some agent_id => .ok (server_url, agent_id)

end Agent

section ValidatorLemmas

open Serializers

/-- `pyStartswith` decides the prefix relation. -/
lemma pyStartswith_iff (s p : Str) : pyStartswith s p = true ↔ p <+: s := by
  induction p generalizing s with
  | nil => simp [pyStartswith]
  | cons a ps ih =>
    cases s with
    | nil => simp [pyStartswith]
    | cons c cs =>
      rw [List.cons_prefix_cons]
      simp [pyStartswith, ih]

/-- `pyContains` decides the infix (substring) relation. -/
lemma pyContains_iff (s sub : Str) : pyContains s sub = true ↔ sub <:+: s := by
  induction s with
  | nil =>
    simp only [pyContains, pyStartswith_iff, List.prefix_nil, List.infix_nil]
  | cons c cs ih =>
    simp only [pyContains, Bool.or_eq_true, pyStartswith_iff, ih,
      List.infix_cons_iff]

/-- Substring containment is transitive through the containing text. -/
lemma pyContains_trans {s mid sub : Str} (h₁ : pyContains s mid = true)
    (h₂ : pyContains mid sub = true) : pyContains s sub = true := by
  rw [pyContains_iff] at h₁ h₂ ⊢
  exact h₂.trans h₁

/-- If the lower-cased text contains any member of the disallowed-token
list, the validator rejects with a `disallowedToken` reason. -/
lemma validate_rejects_of_disallowed (v b : Str) (hb : b ∈ disallowedTokens)
    (h : pyContains (pyLower v) b = true) :
    ∃ bad, validate_allowed_commands v = .error (.disallowedToken bad) := by
  cases v with
  | nil =>
    exfalso
    fin_cases hb <;> simp [pyContains, pyStartswith, pyLower] at h
  | cons c cs =>
    unfold validate_allowed_commands
    cases hscan : scanDisallowed (pyLower (c :: cs)) with
    | none =>
      exfalso
      unfold scanDisallowed at hscan
      exact (List.find?_eq_none.mp hscan b hb) h
    | some bad =>
      exact ⟨bad, by simp [hscan]⟩

end ValidatorLemmas

/-- C3: every script whose lower-cased text contains `sudo`, a backtick,
or `$(` anywhere is rejected by `validate_allowed_commands` (with a
disallowed-token reason); no such script is ever accepted. -/
theorem C3_global_token_veto (v : Str)
    (h : pyContains (pyLower v) (String.toList "sudo") = true ∨
         pyContains (pyLower v) (String.toList "`") = true ∨
         pyContains (pyLower v) (String.toList "$(") = true) :
    ∃ bad, Serializers.validate_allowed_commands v =
      .error (.disallowedToken bad) := by
  rcases h with h | h | h
  · exact validate_rejects_of_disallowed v _ (by decide) h
  · exact validate_rejects_of_disallowed v _ (by decide) h
  · exact validate_rejects_of_disallowed v _ (by decide) h

/-- Witness for C3 at the concrete script `sudo ls`. -/
theorem C3_witness :
    ∃ bad, Serializers.validate_allowed_commands (String.toList "sudo ls") =
      .error (.disallowedToken bad) :=
  C3_global_token_veto (String.toList "sudo ls") (Or.inl (by decide))

/-- C6: the script `echo hi >/etc/motd`, whose redirection target lies
under the forbidden root `/etc`, is accepted: the attached token
`>/etc/motd` is a single shlex token that is not a recognized redirection
operator and does not start with `/`, so it escapes both the
redirection-target check and the direct forbidden-path check. -/
theorem C6_attached_redirection_escapes :
    Serializers.validate_allowed_commands (String.toList "echo hi >/etc/motd") =
      .ok (String.toList "echo hi >/etc/motd") ∧
    Shlex.split (String.toList "echo hi >/etc/motd") =
      some [String.toList "echo", String.toList "hi", String.toList ">/etc/motd"] ∧
    Serializers.redirOps.contains (String.toList ">/etc/motd") = false ∧
    Serializers.token_references_forbidden_path (String.toList ">/etc/motd") = false := by
  refine ⟨rfl, rfl, rfl, rfl⟩

/-- Counterexample for C7: the script `md5s''um x` has command token
`md5sum` (the empty shell quotes vanish under shlex tokenization) yet is
accepted by the validator — its raw text never contains the substring
`su`, so the global token scan does not fire and the allowlist entry
`md5sum` is exercised by an accepted script. -/
theorem C7_counterexample :
    Shlex.split (String.toList "md5s''um x") =
      some [String.toList "md5sum", String.toList "x"] ∧
    Serializers.validate_allowed_commands (String.toList "md5s''um x") =
      .ok (String.toList "md5s''um x") := by
  refine ⟨rfl, rfl⟩

/-- C7 amended: every script whose raw text contains the substring `su`
case-insensitively is rejected by the global token scan, and hence every
script containing the literal text `md5sum` is rejected even though
`md5sum` is in the allowlist; the allowlist entry is however still
reachable by scripts that spell the command with shell quotes. -/
theorem C7_su_scan_amended :
    (String.toList "md5sum") ∈ Serializers.allowedCommands ∧
    (∀ v : Str, pyContains (pyLower v) (String.toList "su") = true →
      ∃ bad, Serializers.validate_allowed_commands v =
        .error (.disallowedToken bad)) ∧
    (∀ v : Str, pyContains (pyLower v) (String.toList "md5sum") = true →
      ∃ bad, Serializers.validate_allowed_commands v =
        .error (.disallowedToken bad)) := by
  refine ⟨by decide, ?_, ?_⟩
  · intro v h
    exact validate_rejects_of_disallowed v _ (by decide) h
  · intro v h
    refine validate_rejects_of_disallowed v (String.toList "su") (by decide) ?_
    have hsub : pyContains (String.toList "md5sum") (String.toList "su") = true := by decide
    -- containment is transitive through the containing text
    exact pyContains_trans h hsub

/-- Witness for C7 at the concrete script `md5sum f`. -/
theorem C7_witness :
    ∃ bad, Serializers.validate_allowed_commands (String.toList "md5sum f") =
      .error (.disallowedToken bad) :=
  C7_su_scan_amended.2.1 (String.toList "md5sum f") (by decide)

/-- Counterexample for C2: a persisted configuration that has `agent_id`
but is missing `server_url` does NOT fail at startup — `main` reads the
server URL with `config.get('server_url', '')`, so the run loop proceeds
with an empty server URL. -/
theorem C2_counterexample :
    Agent.run_mode_startup
        (some [(String.toList "agent_id", String.toList "abc")]) =
      .ok ([], String.toList "abc") := by
  rfl

/-- C2 amended: run-loop startup fails exactly when the `agent_id` field is
absent from the loaded configuration (`config['agent_id']` raises
`KeyError`); in particular it fails when the configuration file is absent,
since `load_config` then yields the empty dict.  A missing `server_url`
alone is not fatal: the loop proceeds with the rstripped default `''`. -/
theorem C2_startup_amended :
    Agent.run_mode_startup none = .error .keyErrorAgentId ∧
    (∀ cfg : Agent.Config,
      Agent.dictGet cfg Agent.agentIdKey = none →
      Agent.run_mode_startup (some cfg) = .error .keyErrorAgentId) ∧
    (∀ (cfg : Agent.Config) (aid : Str),
      Agent.dictGet cfg Agent.agentIdKey = some aid →
      Agent.run_mode_startup (some cfg) =
        .ok (pyRstripSlash ((Agent.dictGet cfg Agent.serverUrlKey).getD []), aid)) := by
  refine ⟨rfl, ?_, ?_⟩
  · intro cfg h
    unfold Agent.run_mode_startup Agent.load_config
    simp only [h]
  · intro cfg aid h
    unfold Agent.run_mode_startup Agent.load_config
    simp only [h]

/-- Witness for C2 amended at a concrete configuration. -/
theorem C2_witness :
    Agent.run_mode_startup
        (some [(String.toList "server_url", String.toList "http://h/"),
               (String.toList "agent_id", String.toList "m1")]) =
      .ok (String.toList "http://h", String.toList "m1") := by
  have h := C2_startup_amended.2.2
    [(String.toList "server_url", String.toList "http://h/"),
     (String.toList "agent_id", String.toList "m1")]
    (String.toList "m1") (by decide)
  simpa using h

section ForbiddenPathLemmas

open Serializers

/-- Two Booleans agreeing as propositions are equal. -/
lemma bool_eq_of_true_iff {a b : Bool} (h : a = true ↔ b = true) : a = b := by
  cases a <;> cases b <;> simp_all

/-- The forbidden-path predicate exactly as claim C4 words it: after
stripping surrounding quote characters, the token starts with `/` and
equals a sensitive root or extends one across a `/` boundary.  (Transcribed
from the claim for comparison with `token_references_forbidden_path`.) -/
def forbiddenPathClaim (tok : Str) : Bool :=
  pyStartswith (pyStripQuotes tok) (String.toList "/") &&
    forbiddenPathPrefixes.any fun pref =>
      pyStripQuotes tok == pref || pyStartswith (pyStripQuotes tok) (pref ++ ['/'])

/-- Propositional characterization of `forbiddenCore`. -/
lemma forbiddenCore_true_iff (c : Str) :
    forbiddenCore c = true ↔
      ((String.toList "~root" <+: c ∨ String.toList "~/root" <+: c) ∨
        (String.toList "/" <+: c ∧
          ∃ pref ∈ forbiddenPathPrefixes, c = pref ∨ pref ++ ['/'] <+: c)) := by
  have tilde_of_root : String.toList "~root" <+: c → String.toList "~" <+: c :=
    fun h => List.IsPrefix.trans (by decide) h
  have tilde_of_slashroot : String.toList "~/root" <+: c → String.toList "~" <+: c :=
    fun h => List.IsPrefix.trans (by decide) h
  have not_slash_of_tilde : String.toList "~" <+: c → ¬ String.toList "/" <+: c := by
    rintro ⟨t₁, h₁⟩ ⟨t₂, h₂⟩
    rw [← h₁] at h₂
    simp at h₂
  unfold forbiddenCore
  split_ifs with h1 h2
  · refine iff_of_true rfl ?_
    simp only [Bool.and_eq_true, Bool.or_eq_true, pyStartswith_iff, beq_iff_eq] at h1
    rcases h1 with ⟨-, (hroot | heq) | hslash⟩
    · exact Or.inl (Or.inl hroot)
    · exact Or.inl (Or.inl (by rw [heq]))
    · exact Or.inl (Or.inr hslash)
  · refine iff_of_false (by simp) ?_
    simp only [Bool.and_eq_true, Bool.or_eq_true, pyStartswith_iff, beq_iff_eq,
      not_and, not_or] at h1
    simp only [Bool.not_eq_true', pyStartswith_iff] at h2
    rintro ((hroot | hslashroot) | ⟨hslash, -⟩)
    · exact ((h1 (tilde_of_root hroot)).1).1 hroot
    · exact (h1 (tilde_of_slashroot hslashroot)).2 hslashroot
    · rw [← pyStartswith_iff, h2] at hslash
      exact absurd hslash (by decide)
  · have h2p : String.toList "/" <+: c := by
      rw [← pyStartswith_iff]
      cases hpx : pyStartswith c (String.toList "/") with
      | true => rfl
      | false => exact absurd (by rw [hpx]; rfl) h2
    simp only [List.any_eq_true, Bool.or_eq_true, beq_iff_eq, pyStartswith_iff]
    constructor
    · intro h
      exact Or.inr ⟨h2p, h⟩
    · rintro ((hroot | hslashroot) | ⟨-, h⟩)
      · exact absurd h2p (not_slash_of_tilde (tilde_of_root hroot))
      · exact absurd h2p (not_slash_of_tilde (tilde_of_slashroot hslashroot))
      · exact h

end ForbiddenPathLemmas

/-- Counterexample for C4: the token `~root/x` does not start with `/`
after quote-stripping, yet `token_references_forbidden_path` rejects it
(the conservative `~root` heuristic), so the rule does not reject exactly
the `/`-rooted tokens the claim describes. -/
theorem C4_counterexample :
    Serializers.token_references_forbidden_path (String.toList "~root/x") = true ∧
    forbiddenPathClaim (String.toList "~root/x") = false ∧
    pyStartswith (pyStripQuotes (String.toList "~root/x")) (String.toList "/") = false := by
  refine ⟨rfl, rfl, rfl⟩

/-- C4 amended: the forbidden-path rule rejects exactly the tokens that,
after stripping surrounding quote characters, either fall under the
conservative `~root`/`~/root` home heuristic or start with `/` and equal a
sensitive root or extend one across a `/` boundary; in particular
`cat /etc/passwd` is rejected with a forbidden-path reason and
`cat /home/user/file.txt` is accepted. -/
theorem C4_forbidden_path_amended :
    (∀ tok : Str, Serializers.token_references_forbidden_path tok =
      (pyStartswith (pyStripQuotes tok) (String.toList "~root") ||
       pyStartswith (pyStripQuotes tok) (String.toList "~/root") ||
       forbiddenPathClaim tok)) ∧
    Serializers.validate_allowed_commands (String.toList "cat /etc/passwd") =
      .error (.forbiddenPath (String.toList "/etc/passwd") 1) ∧
    Serializers.validate_allowed_commands (String.toList "cat /home/user/file.txt") =
      .ok (String.toList "cat /home/user/file.txt") := by
  refine ⟨?_, rfl, rfl⟩
  intro tok
  apply bool_eq_of_true_iff
  rw [Serializers.token_references_forbidden_path, forbiddenCore_true_iff]
  simp only [Bool.or_eq_true, Bool.and_eq_true, pyStartswith_iff, forbiddenPathClaim,
    List.any_eq_true, beq_iff_eq]

/-- C5: after the command token, a redirection operator (`>`, `>>`, `<`,
`2>`, `2>>`) consumes the following token as its target, which must pass
the forbidden-path check — so `echo hi > /etc/motd` is rejected although
`echo` is allowlisted — and an operator that ends its segment is rejected
as a dangling redirect. -/
theorem C5_redirection_targets :
    Serializers.validate_allowed_commands (String.toList "echo hi > /etc/motd") =
      .error (.redirectionForbidden (String.toList "/etc/motd") 1) ∧
    Serializers.validate_allowed_commands (String.toList "echo hi >") =
      .error (.danglingRedirect (String.toList ">") 1) ∧
    (∀ (lineno : Nat) (op target : Str) (rest : List Str),
      op ∈ Serializers.redirOps →
      Serializers.scanArgs lineno (op :: target :: rest) =
        (if Serializers.token_references_forbidden_path target then
          .error (.redirectionForbidden target lineno)
        else Serializers.scanArgs lineno rest)) ∧
    (∀ (lineno : Nat) (op : Str), op ∈ Serializers.redirOps →
      Serializers.scanArgs lineno [op] = .error (.danglingRedirect op lineno)) := by
  refine ⟨rfl, rfl, ?_, ?_⟩
  · intro lineno op target rest hop
    conv_lhs => rw [Serializers.scanArgs]
    simp [hop]
  · intro lineno op hop
    conv_lhs => rw [Serializers.scanArgs]
    simp [hop]

/-- Witness for C5 at the concrete operator `>` and target `/etc/passwd`. -/
theorem C5_witness :
    Serializers.scanArgs 1 [String.toList ">", String.toList "/etc/passwd"] =
      .error (.redirectionForbidden (String.toList "/etc/passwd") 1) ∧
    Serializers.scanArgs 1 [String.toList ">>"] =
      .error (.danglingRedirect (String.toList ">>") 1) := by
  constructor
  · rw [C5_redirection_targets.2.2.1 1 (String.toList ">") (String.toList "/etc/passwd") []
      (by decide)]
    rfl
  · exact C5_redirection_targets.2.2.2 1 (String.toList ">>") (by decide)

section NormalizationLemmas

/-- `Char.ofNat` evaluates `toNat` back on valid code points. -/
lemma char_toNat_ofNat (n : Nat) (h : n.isValidChar) : (Char.ofNat n).toNat = n := by
  unfold Char.ofNat
  rw [dif_pos h]
  rfl

/-- ASCII lower-casing is idempotent. -/
lemma pyCharLower_idem (c : Char) : pyCharLower (pyCharLower c) = pyCharLower c := by
  by_cases h : 65 ≤ c.toNat ∧ c.toNat ≤ 90
  · have hv : (c.toNat + 32).isValidChar := Or.inl (by omega)
    have htn : (Char.ofNat (c.toNat + 32)).toNat = c.toNat + 32 := char_toNat_ofNat _ hv
    have hc : pyCharLower c = Char.ofNat (c.toNat + 32) := by rw [pyCharLower, if_pos h]
    rw [hc, pyCharLower, if_neg (by rw [htn]; omega)]
  · have hc : pyCharLower c = c := by rw [pyCharLower, if_neg h]
    rw [hc]
    exact hc

/-- ASCII lower-casing never produces a space from a non-space. -/
lemma pyCharLower_ne_space {c : Char} (h : c ≠ ' ') : pyCharLower c ≠ ' ' := by
  unfold pyCharLower
  split_ifs with h1
  · intro heq
    have := congrArg Char.toNat heq
    rw [char_toNat_ofNat _ (Or.inl (by omega))] at this
    have hs : (' ' : Char).toNat = 32 := rfl
    omega
  · exact h

/-- `lstripP` yields a suffix of its argument. -/
lemma lstripP_suffix (p : Char → Bool) (s : Str) : lstripP p s <:+ s := by
  induction s with
  | nil => exact List.suffix_refl _
  | cons c rest ih =>
    rw [lstripP]
    split_ifs with h
    · exact ih.trans (List.suffix_cons c rest)
    · exact List.suffix_refl _

/-- The head of `lstripP`'s result does not satisfy `p`. -/
lemma head?_lstripP (p : Char → Bool) (s : Str) :
    ∀ c, (lstripP p s).head? = some c → p c = false := by
  induction s with
  | nil => intro c h; simp [lstripP] at h
  | cons a rest ih =>
    intro c h
    rw [lstripP] at h
    split_ifs at h with ha
    · exact ih c h
    · simp only [List.head?_cons, Option.some.injEq] at h
      rw [← h]
      exact Bool.not_eq_true _ ▸ ha

/-- `lstripP` is the identity when the head does not satisfy `p`. -/
lemma lstripP_eq_self (p : Char → Bool) (s : Str)
    (h : ∀ c, s.head? = some c → p c = false) : lstripP p s = s := by
  cases s with
  | nil => rfl
  | cons a rest =>
    rw [lstripP, if_neg]
    simp [h a rfl]

/-- `lstripP` is idempotent. -/
lemma lstripP_idem (p : Char → Bool) (s : Str) :
    lstripP p (lstripP p s) = lstripP p s :=
  lstripP_eq_self p _ (head?_lstripP p s)

/-- Members of `pyStripP`'s result are members of the argument. -/
lemma mem_pyStripP {p : Char → Bool} {s : Str} {c : Char}
    (h : c ∈ pyStripP p s) : c ∈ s := by
  unfold pyStripP at h
  rw [List.mem_reverse] at h
  have h₁ := (lstripP_suffix p (lstripP p s).reverse).subset h
  rw [List.mem_reverse] at h₁
  exact (lstripP_suffix p s).subset h₁

/-- `pyStripP` is idempotent. -/
lemma pyStripP_idem (p : Char → Bool) (s : Str) :
    pyStripP p (pyStripP p s) = pyStripP p s := by
  set t₁ := lstripP p s with ht₁
  set z := lstripP p t₁.reverse with hz
  have hy : pyStripP p s = z.reverse := rfl
  -- the stripped string is a prefix of `lstripP p s`
  have hpref : z.reverse <+: t₁ := by
    rw [← List.reverse_reverse t₁]
    exact List.reverse_prefix.mpr (lstripP_suffix p t₁.reverse)
  have hstep1 : lstripP p z.reverse = z.reverse := by
    apply lstripP_eq_self
    intro c hc
    rcases hpref with ⟨r, hr⟩
    apply head?_lstripP p s c
    rw [← ht₁, ← hr]
    cases hzr : z.reverse with
    | nil => rw [hzr] at hc; simp at hc
    | cons a as =>
      rw [hzr] at hc
      simp only [List.head?_cons, Option.some.injEq] at hc
      simp [hc]
  rw [hy, pyStripP, hstep1, List.reverse_reverse, hz, lstripP_idem]

end NormalizationLemmas

/-- C10: script-name normalization (remove spaces, lower-case, strip) is
idempotent — normalizing an already-normalized name is a no-op. -/
theorem C10_normalize_name_idempotent (s : Str) :
    Serializers.normalize_name (Serializers.normalize_name s) =
      Serializers.normalize_name s := by
  unfold Serializers.normalize_name
  set t := pyLower (s.filter fun c => !(c == ' ')) with ht
  have hmem : ∀ c ∈ pyStripWS t, ∃ d, d ≠ ' ' ∧ c = pyCharLower d := by
    intro c hc
    have hct : c ∈ t := mem_pyStripP hc
    rw [ht] at hct
    obtain ⟨d, hd, hdc⟩ := List.mem_map.mp hct
    refine ⟨d, ?_, hdc.symm⟩
    have := List.of_mem_filter hd
    simpa using this
  have hfilter : (pyStripWS t).filter (fun c => !(c == ' ')) = pyStripWS t := by
    rw [List.filter_eq_self]
    intro c hc
    obtain ⟨d, hd, hdc⟩ := hmem c hc
    simpa [hdc] using pyCharLower_ne_space hd
  have hlower : pyLower (pyStripWS t) = pyStripWS t := by
    unfold pyLower
    conv_rhs => rw [← List.map_id (pyStripWS t)]
    apply List.map_congr_left
    intro c hc
    obtain ⟨d, -, hdc⟩ := hmem c hc
    rw [hdc, pyCharLower_idem]
    rfl
  rw [hfilter, hlower]
  exact pyStripP_idem _ _

namespace Server

/-- The command-update function applied by `store_command_result`. -/
def completeUpd (id : Nat) (out : Option Str) (d : Cmd) : Cmd :=
  if d.id == id then { d with output := out, status := .completed } else d

/-- `completeUpd` preserves command ids. -/
lemma completeUpd_id (id : Nat) (out : Option Str) (d : Cmd) :
    (completeUpd id out d).id = d.id := by
  unfold completeUpd
  split_ifs <;> rfl

/-- Lookup by id commutes with the completion update. -/
lemma find?_map_completeUpd (l : List Cmd) (id : Nat) (out : Option Str) :
    (l.map (completeUpd id out)).find? (fun d => d.id == id) =
      (l.find? (fun d => d.id == id)).map (completeUpd id out) := by
  rw [List.find?_map]
  have hfun : ((fun d : Cmd => d.id == id) ∘ completeUpd id out) =
      fun d : Cmd => d.id == id := by
    funext d
    simp [Function.comp, completeUpd_id]
  rw [hfun]

/-- Two members of an id-pairwise-distinct list with the same id are equal. -/
lemma mem_id_unique {l : List Cmd} (hp : l.Pairwise fun a b => a.id ≠ b.id)
    {c d : Cmd} (hc : c ∈ l) (hd : d ∈ l) (h : c.id = d.id) : c = d := by
  induction l with
  | nil => cases hc
  | cons x xs ih =>
    rw [List.pairwise_cons] at hp
    rcases List.mem_cons.mp hc with rfl | hc₂ <;> rcases List.mem_cons.mp hd with rfl | hd₂
    · rfl
    · exact absurd h (hp.1 d hd₂)
    · exact absurd h.symm (hp.1 c hc₂)
    · exact ih hp.2 hc₂ hd₂

/-- The commands list after one request: unchanged, extended by one fresh
pending command, or completion-updated at one id. -/
lemma applyOp_commands (op : Op) (st : ServerState) :
    (applyOp op st).commands = st.commands ∨
    (∃ m s, (applyOp op st).commands =
      st.commands ++ [⟨st.nextCommandId, m, s, .pending, none⟩] ∧
      (applyOp op st).nextCommandId = st.nextCommandId + 1) ∨
    (∃ id out, (applyOp op st).commands = st.commands.map (completeUpd id out)) := by
  cases op with
  | register id name now =>
    left
    simp only [applyOp, register_machine]
    cases hm : findMachine st id <;> rfl
  | createScript n c =>
    left
    simp only [applyOp, create_script]
    cases hv : Serializers.validate_allowed_commands c with
    | error e => rfl
    | ok v =>
      cases hs : findScript st (Serializers.normalize_name n) <;> rfl
  | schedule m s =>
    simp only [applyOp, schedule_machine_command]
    cases hm : findMachine st m with
    | none => exact Or.inl rfl
    | some _ =>
      cases hs : findScript st s with
      | none => exact Or.inl rfl
      | some _ => exact Or.inr (Or.inl ⟨m, s, rfl, rfl⟩)
  | listPending m now =>
    left
    simp only [applyOp, list_pending_commands]
    cases hm : findMachine st m <;> rfl
  | complete id out =>
    simp only [applyOp, store_command_result]
    cases hc : findCommand st id with
    | none => exact Or.inl rfl
    | some c => exact Or.inr (Or.inr ⟨id, out, rfl⟩)

/-- `nextCommandId` never decreases. -/
lemma applyOp_nextCommandId (op : Op) (st : ServerState) :
    st.nextCommandId ≤ (applyOp op st).nextCommandId := by
  cases op with
  | register id name now =>
    simp only [applyOp, register_machine]
    cases hm : findMachine st id <;> exact Nat.le_refl _
  | createScript n c =>
    simp only [applyOp, create_script]
    cases hv : Serializers.validate_allowed_commands c with
    | error e => exact Nat.le_refl _
    | ok v =>
      cases hs : findScript st (Serializers.normalize_name n) <;> exact Nat.le_refl _
  | schedule m s =>
    simp only [applyOp, schedule_machine_command]
    cases hm : findMachine st m with
    | none => exact Nat.le_refl _
    | some _ =>
      cases hs : findScript st s with
      | none => exact Nat.le_refl _
      | some _ => exact Nat.le_succ _
  | listPending m now =>
    simp only [applyOp, list_pending_commands]
    cases hm : findMachine st m <;> exact Nat.le_refl _
  | complete id out =>
    simp only [applyOp, store_command_result]
    cases hc : findCommand st id with
    | none => exact Nat.le_refl _
    | some c => exact Nat.le_refl _

/-- Well-formedness is preserved by every request. -/
lemma wf_applyOp (op : Op) (st : ServerState) (h : WFState st) :
    WFState (applyOp op st) := by
  obtain ⟨hp, hbound⟩ := h
  have hnext := applyOp_nextCommandId op st
  rcases applyOp_commands op st with heq | ⟨m, s, heq, hinc⟩ | ⟨id, out, heq⟩
  · exact ⟨heq ▸ hp, fun c hc => Nat.lt_of_lt_of_le (hbound c (heq ▸ hc)) hnext⟩
  · constructor
    · rw [heq, List.pairwise_append]
      refine ⟨hp, List.pairwise_singleton _ _, ?_⟩
      intro a ha b hb
      have hb' : b = ⟨st.nextCommandId, m, s, .pending, none⟩ := by simpa using hb
      rw [hb']
      exact Nat.ne_of_lt (hbound a ha)
    · intro c hc
      rw [heq] at hc
      rcases List.mem_append.mp hc with hold | hnew
      · exact Nat.lt_of_lt_of_le (hbound c hold) hnext
      · have hc' : c = ⟨st.nextCommandId, m, s, .pending, none⟩ := by simpa using hnew
        rw [hc', hinc]
        exact Nat.lt_succ_self _
  · constructor
    · rw [heq]
      exact List.Pairwise.map _ (fun a b hab => by
        rw [completeUpd_id, completeUpd_id]; exact hab) hp
    · intro c hc
      rw [heq] at hc
      obtain ⟨d, hd, rfl⟩ := List.mem_map.mp hc
      rw [completeUpd_id]
      exact Nat.lt_of_lt_of_le (hbound d hd) hnext

end Server

namespace Server

/-- The empty database is well-formed. -/
lemma wf_initial : WFState initialState :=
  ⟨List.Pairwise.nil, fun _ hc => absurd hc (List.not_mem_nil _)⟩

/-- Every reachable store is well-formed. -/
lemma reachable_wf {st : ServerState} (h : Reachable st) : WFState st := by
  induction h with
  | init => exact wf_initial
  | step op _ ih => exact wf_applyOp op _ ih

/-- Both lifecycle clauses hold for a command that was already present and
whose list is unchanged. -/
lemma lifecycle_clauses_of_same {st : ServerState}
    (hp : st.commands.Pairwise fun a b => a.id ≠ b.id) {c' : Cmd}
    (hc' : c' ∈ st.commands) :
    ((∀ c ∈ st.commands, c.id ≠ c'.id) → c'.status = .pending) ∧
    (∀ c ∈ st.commands, c.id = c'.id →
      c'.status = c.status ∨ (c.status = .pending ∧ c'.status = .completed)) := by
  constructor
  · intro hnone
    exact absurd rfl (hnone c' hc')
  · intro c hc hid
    rw [mem_id_unique hp hc hc' hid]
    exact Or.inl rfl

end Server

/-- C1: over any request applied to a reachable store, every command is
created only in `pending` status, and the only status change any operation
performs is `pending → completed`: a command with a fresh id appears as
`pending`, and a command whose id already existed either keeps its status or
moves from `pending` to `completed` — never back to `pending`, never out of
`completed`. -/
theorem C1_command_lifecycle (st : Server.ServerState) (op : Server.Op)
    (h : Server.Reachable st) :
    ∀ c' ∈ (Server.applyOp op st).commands,
      ((∀ c ∈ st.commands, c.id ≠ c'.id) → c'.status = .pending) ∧
      (∀ c ∈ st.commands, c.id = c'.id →
        c'.status = c.status ∨ (c.status = .pending ∧ c'.status = .completed)) := by
  obtain ⟨hp, hbound⟩ := Server.reachable_wf h
  intro c' hc'
  rcases Server.applyOp_commands op st with heq | ⟨m, s, heq, -⟩ | ⟨id, out, heq⟩
  · rw [heq] at hc'
    exact Server.lifecycle_clauses_of_same hp hc'
  · rw [heq] at hc'
    rcases List.mem_append.mp hc' with hold | hnew
    · exact Server.lifecycle_clauses_of_same hp hold
    · have hc'' : c' = ⟨st.nextCommandId, m, s, .pending, none⟩ := by simpa using hnew
      subst hc''
      constructor
      · intro _
        rfl
      · intro c hc hid
        exact absurd hid (Nat.ne_of_lt (hbound c hc))
  · rw [heq] at hc'
    obtain ⟨d, hd, rfl⟩ := List.mem_map.mp hc'
    constructor
    · intro hnone
      exact absurd (Server.completeUpd_id id out d).symm (hnone d hd)
    · intro c hc hid
      have hcd : c = d := Server.mem_id_unique hp hc hd
        (by rw [hid, Server.completeUpd_id])
      subst hcd
      by_cases he : (c.id == id) = true
      · have hupd : Server.completeUpd id out c =
            { c with output := out, status := .completed } := by
          unfold Server.completeUpd
          rw [if_pos he]
        rw [hupd]
        cases hcs : c.status with
        | pending => exact Or.inr ⟨rfl, rfl⟩
        | completed => exact Or.inl rfl
      · have hupd : Server.completeUpd id out c = c := by
          unfold Server.completeUpd
          rw [if_neg (by simp [he])]
        rw [hupd]
        exact Or.inl rfl

/-- A concrete reachable store: one machine `m`, one script `s`. -/
def demoState : Server.ServerState :=
  Server.applyOp (.createScript (String.toList "s") (String.toList "ls"))
    (Server.applyOp (.register (String.toList "m") (String.toList "mach") 0)
      Server.initialState)

/-- Witness for C1: scheduling on the demo store creates the command in
`pending` status. -/
theorem C1_witness :
    (⟨0, String.toList "m", String.toList "s", Server.CmdStatus.pending, none⟩ :
      Server.Cmd).status = Server.CmdStatus.pending := by
  have h := C1_command_lifecycle demoState
    (.schedule (String.toList "m") (String.toList "s"))
    (Server.Reachable.step _ (Server.Reachable.step _ Server.Reachable.init))
  have hmem : (⟨0, String.toList "m", String.toList "s", Server.CmdStatus.pending,
      none⟩ : Server.Cmd) ∈
      (Server.applyOp (.schedule (String.toList "m") (String.toList "s"))
        demoState).commands := by decide
  exact (h _ hmem).1 (by decide)

namespace Server

/-- A successful completion: the returned store maps the completion update
over the commands, and the command is found completed with the new output. -/
lemma store_command_result_ok {st : ServerState} {id : Nat} {c : Cmd}
    (h : findCommand st id = some c) (out : Option Str) :
    store_command_result st id out =
      .ok ({ st with commands := st.commands.map (completeUpd id out) },
           { c with output := out, status := .completed }) ∧
    findCommand { st with commands := st.commands.map (completeUpd id out) } id =
      some { c with output := out, status := .completed } := by
  have h' : st.commands.find? (fun d => d.id == id) = some c := h
  have hcid : (c.id == id) = true := by
    have := List.find?_some h'
    simpa using this
  constructor
  · unfold store_command_result
    rw [h]
    rfl
  · show (st.commands.map (completeUpd id out)).find? (fun d => d.id == id) = _
    rw [find?_map_completeUpd]
    unfold findCommand at h
    rw [h]
    simp [completeUpd, hcid]

end Server

/-- C8: `store_command_result` fails with `notFound` and leaves the store
unchanged when no command with the given id exists; otherwise — with no
check of the prior status — it sets the command's output and status to
`completed`, and a second call on the already-completed command succeeds
and overwrites the stored output. -/
theorem C8_complete_overwrites (st : Server.ServerState) (id : Nat) (out : Option Str) :
    (Server.findCommand st id = none →
      Server.store_command_result st id out = .error .notFound ∧
      Server.applyOp (.complete id out) st = st) ∧
    (∀ c, Server.findCommand st id = some c →
      ∃ st', Server.store_command_result st id out =
          .ok (st', { c with output := out, status := .completed }) ∧
        Server.findCommand st' id =
          some { c with output := out, status := .completed } ∧
        st'.machines = st.machines ∧ st'.scripts = st.scripts ∧
        (∀ out₂, ∃ st'',
          Server.store_command_result st' id out₂ =
            .ok (st'', { c with output := out₂, status := .completed }) ∧
          Server.findCommand st'' id =
            some { c with output := out₂, status := .completed })) := by
  constructor
  · intro h
    constructor
    · unfold Server.store_command_result
      rw [h]
    · simp only [Server.applyOp]
      unfold Server.store_command_result
      rw [h]
  · intro c h
    obtain ⟨hok, hfind⟩ := Server.store_command_result_ok h out
    refine ⟨_, hok, hfind, rfl, rfl, ?_⟩
    intro out₂
    obtain ⟨hok₂, hfind₂⟩ := Server.store_command_result_ok hfind out₂
    exact ⟨_, hok₂, hfind₂⟩

/-- A store holding one pending command with id 5. -/
def c8Demo : Server.ServerState :=
  ⟨[], [], [⟨5, String.toList "m", String.toList "s", .pending, none⟩], 6⟩

/-- Witness for C8: completing a missing id fails, completing id 5
succeeds with the completed record. -/
theorem C8_witness :
    Server.store_command_result c8Demo 99 none = .error .notFound ∧
    Server.applyOp (.complete 99 none) c8Demo = c8Demo ∧
    (∃ st', Server.store_command_result c8Demo 5 (some (String.toList "o")) =
      .ok (st', ⟨5, String.toList "m", String.toList "s", Server.CmdStatus.completed,
        some (String.toList "o")⟩)) := by
  have h₁ := (C8_complete_overwrites c8Demo 99 none).1 (by decide)
  have h₂ := (C8_complete_overwrites c8Demo 5 (some (String.toList "o"))).2
    ⟨5, String.toList "m", String.toList "s", .pending, none⟩ (by decide)
  obtain ⟨st', hok, -⟩ := h₂
  exact ⟨h₁.1, h₁.2, ⟨st', hok⟩⟩

/-- C9: `create_script` normalizes the name and runs the validator on the
content; a validation rejection propagates the reason and stores nothing; a
duplicate normalized name yields a conflict with the existing script intact;
only validated content is ever inserted. -/
theorem C9_create_script_gating (st : Server.ServerState) (rawName content : Str) :
    (∀ e, Serializers.validate_allowed_commands content = .error e →
      Server.create_script st rawName content = .error (.validationFailed e) ∧
      Server.applyOp (.createScript rawName content) st = st) ∧
    (∀ v old, Serializers.validate_allowed_commands content = .ok v →
      Server.findScript st (Serializers.normalize_name rawName) = some old →
      Server.create_script st rawName content = .error .conflict ∧
      Server.applyOp (.createScript rawName content) st = st ∧
      Server.findScript (Server.applyOp (.createScript rawName content) st)
        (Serializers.normalize_name rawName) = some old) ∧
    (∀ v, Serializers.validate_allowed_commands content = .ok v →
      Server.findScript st (Serializers.normalize_name rawName) = none →
      Server.create_script st rawName content =
        .ok ({ st with scripts :=
                st.scripts ++ [(Serializers.normalize_name rawName, v)] },
             Serializers.normalize_name rawName)) := by
  refine ⟨?_, ?_, ?_⟩
  · intro e he
    have hcs : Server.create_script st rawName content =
        .error (.validationFailed e) := by
      unfold Server.create_script
      rw [he]
    refine ⟨hcs, ?_⟩
    simp only [Server.applyOp]
    rw [hcs]
  · intro v old hv hold
    have hcs : Server.create_script st rawName content = .error .conflict := by
      unfold Server.create_script
      rw [hv, hold]
    have happ : Server.applyOp (.createScript rawName content) st = st := by
      simp only [Server.applyOp]
      rw [hcs]
    refine ⟨hcs, happ, ?_⟩
    rw [happ]
    exact hold
  · intro v hv hnone
    unfold Server.create_script
    rw [hv, hnone]

/-- A store holding one script named `dup`. -/
def c9Demo : Server.ServerState :=
  ⟨[], [(String.toList "dup", String.toList "ls")], [], 0⟩

/-- Witness for C9: rejected content is propagated and stores nothing; the
name `Dup` normalizes onto the existing `dup` and conflicts without
overwriting it. -/
theorem C9_witness :
    (Server.create_script c9Demo (String.toList "nm") (String.toList "sudo ls") =
      .error (.validationFailed (.disallowedToken (String.toList "sudo"))) ∧
      Server.applyOp
        (.createScript (String.toList "nm") (String.toList "sudo ls")) c9Demo =
        c9Demo) ∧
    (Server.create_script c9Demo (String.toList "Dup") (String.toList "ls") =
      .error .conflict ∧
      Server.findScript
        (Server.applyOp (.createScript (String.toList "Dup") (String.toList "ls"))
          c9Demo)
        (Serializers.normalize_name (String.toList "Dup")) =
        some (String.toList "dup", String.toList "ls")) := by
  have h₁ := (C9_create_script_gating c9Demo (String.toList "nm")
    (String.toList "sudo ls")).1 (.disallowedToken (String.toList "sudo")) (by rfl)
  have h₂ := (C9_create_script_gating c9Demo (String.toList "Dup")
    (String.toList "ls")).2.1 (String.toList "ls")
    (String.toList "dup", String.toList "ls") (by rfl) (by rfl)
  exact ⟨⟨h₁.1, h₁.2⟩, ⟨h₂.1, h₂.2.2⟩⟩
